import Mathlib

/-!
Verification of the nested filter-to-query compiler specified for the
jpnut/jamienuttall.me repository, together with models of the blog's
index page and layout component.

The repository itself is a statically generated blog.  The filtering
subsystem (builder, guard policy and predicate compiler) is described in
the repository's content and in the specification but has no
implementation under the repository sources, so the definitions in the
first part of this file are modelled from the specification's words
(sections 3, 4 and 7): each such definition carries a doc comment saying
so.  The index page and layout component are translated from the
repository's page sources.
-/

/-! ## Data model (spec section 3) -/

/-- Modelled from the spec: the value domain of a filterable field
(string, number or boolean domains suffice for every behaviour the
specification exercises). -/
inductive Domain where
  | string
  | number
  | boolean
deriving Repr, DecidableEq

/-- Modelled from the spec: the comparison operators of a `LeafFilter`
(`IS`/`NOT` for any domain, `BEGINS`/`CONTAINS`/`ENDS` for string
domains, ordered comparisons and their inclusive variants for number
domains). -/
inductive Operator where
  | IS
  | NOT
  | BEGINS
  | CONTAINS
  | ENDS
  | GREATER_THAN
  | LESS_THAN
  | GREATER_THAN_OR_EQUAL
  | LESS_THAN_OR_EQUAL
deriving Repr, DecidableEq

/-- Modelled from the spec: a typed value carried by a leaf filter or
stored in a record column. -/
inductive Value where
  | str (s : String)
  | num (n : Int)
  | bool (b : Bool)
deriving Repr, DecidableEq

/-- Modelled from the spec: a schema-permitted attribute name together
with its value domain. -/
structure FilterField where
  name : String
  domain : Domain
deriving Repr, DecidableEq

/-- Modelled from the spec: the boolean combinator kind of a composite
filter. -/
inductive CompKind where
  | AND
  | OR
deriving Repr, DecidableEq

/-- Modelled from the spec: `FilterNode` is the sum of a single
comparison (`leaf`) and a boolean combinator over an ordered sequence of
child nodes (`comp`). -/
inductive FilterNode where
  | leaf (field : FilterField) (op : Operator) (value : Value)
  | comp (kind : CompKind) (children : List FilterNode)
deriving Repr

/-- Modelled from the spec: which of the two guard limits tripped. -/
inductive LimitKind where
  | Depth
  | NodeCount
deriving Repr, DecidableEq

/-- Modelled from the spec: the builder error taxonomy of spec section 7.
`LimitExceeded` carries the limit kind and the root-to-violation path of
field names / composite kinds. -/
inductive BuildError where
  | UnknownField (name : String)
  | InvalidOperator (name : String) (op : String)
  | InvalidValue (name : String)
  | MalformedNode (path : List String)
  | LimitExceeded (kind : LimitKind) (path : List String)
deriving Repr, DecidableEq

/-- Modelled from the spec: the guard configuration, a maximum nesting
depth and a maximum total node count. -/
structure GuardLimits where
  maxDepth : Nat
  maxNodes : Nat
deriving Repr, DecidableEq

/-- Modelled from the spec: the built-in default limits - at most 10
layers of depth and at most 100 total filters. -/
def defaultLimits : GuardLimits := ⟨10, 100⟩

/-- Modelled from the spec: a schema is a read-only mapping from field
name to the field's domain. -/
abbrev Schema := List (String × Domain)

/-- First-match lookup of a field name in a schema. -/
def schemaLookup (schema : Schema) (name : String) : Option Domain :=
  match schema with
  | [] => none
  | (n, d) :: rest => if n = name then some d else schemaLookup rest name

/-- Modelled from the spec: the raw untyped nested mapping submitted by a
caller, restricted to the shapes spec section 4.1 names - an empty
mapping, a single-key `{field: {value, operator}}` leaf shape, a
single-key `{key: [subtree, ...]}` sequence shape, or any other
(malformed) single-key shape. -/
inductive Raw where
  | empty
  | leafNode (field : String) (value : Value) (op : String)
  | listNode (key : String) (children : List Raw)
  | badNode (key : String)
deriving Repr

/-! ## Guard policy (spec section 4.3) -/

/-- Modelled from the spec: the stateless guard check, called by the
builder at every recursion step; depth is compared first, then the total
node count, and the offending limit kind is reported. -/
def Guard.check (depth nodes : Nat) (limits : GuardLimits) : Except LimitKind Unit :=
  if limits.maxDepth < depth then .error .Depth
  else if limits.maxNodes < nodes then .error .NodeCount
  else .ok ()

/-- Recognise the composite markers `and` / `or`. -/
def compKindOf (key : String) : Option CompKind :=
  if key = "and" then some .AND else if key = "or" then some .OR else none

/-- Parse the wire name of an operator. -/
def parseOperator (s : String) : Option Operator :=
  if s = "IS" then some .IS
  else if s = "NOT" then some .NOT
  else if s = "BEGINS" then some .BEGINS
  else if s = "CONTAINS" then some .CONTAINS
  else if s = "ENDS" then some .ENDS
  else if s = "GREATER_THAN" then some .GREATER_THAN
  else if s = "LESS_THAN" then some .LESS_THAN
  else if s = "GREATER_THAN_OR_EQUAL" then some .GREATER_THAN_OR_EQUAL
  else if s = "LESS_THAN_OR_EQUAL" then some .LESS_THAN_OR_EQUAL
  else none

/-- Modelled from the spec: the operators permitted for each domain. -/
def permittedOperators (d : Domain) : List Operator :=
  match d with
  | .string => [.IS, .NOT, .BEGINS, .CONTAINS, .ENDS]
  | .number => [.IS, .NOT, .GREATER_THAN, .LESS_THAN, .GREATER_THAN_OR_EQUAL,
      .LESS_THAN_OR_EQUAL]
  | .boolean => [.IS, .NOT]

/-- Modelled from the spec: coercion of a raw value into a field's
domain; a mismatch is a coercion failure. -/
def coerceValue (d : Domain) (v : Value) : Option Value :=
  match d, v with
  | .string, .str s => some (.str s)
  | .number, .num n => some (.num n)
  | .boolean, .bool b => some (.bool b)
  | _, _ => none

/-! ## Filter tree builder (spec section 4.1)

The builder descends the raw mapping recursively.  At each node it
increments the depth and the running total-node counter (the counter is
threaded through the recursion and returned with the parse result),
invokes the guard, and then dispatches on the node shape.  The first
error aborts the whole build. -/

mutual

/-- Modelled from the spec: the recursive worker of `build`.  `depth` is
the depth of the node being entered (the root has depth 1), `count` is
the number of nodes completed before entering this node, and `path` is
the sequence of field names / composite kinds of the ancestors. -/
def buildAux (schema : Schema) (limits : GuardLimits) :
    Raw → Nat → Nat → List String → Except BuildError (FilterNode × Nat)
  | .empty, depth, count, path =>
    match Guard.check depth (count + 1) limits with
    | .error k => .error (.LimitExceeded k path)
    | .ok _ => .ok (.comp .AND [], count + 1)
  | .leafNode name v opStr, depth, count, path =>
    match Guard.check depth (count + 1) limits with
    | .error k => .error (.LimitExceeded k (path ++ [name]))
    | .ok _ =>
      match compKindOf name with
      | some _ => .error (.MalformedNode (path ++ [name]))
      | none =>
        match schemaLookup schema name with
        | none => .error (.UnknownField name)
        | some dom =>
          match parseOperator opStr with
          | none => .error (.InvalidOperator name opStr)
          | some op =>
            if op ∈ permittedOperators dom then
              match coerceValue dom v with
              | none => .error (.InvalidValue name)
              | some value => .ok (.leaf ⟨name, dom⟩ op value, count + 1)
            else .error (.InvalidOperator name opStr)
  | .listNode key children, depth, count, path =>
    match Guard.check depth (count + 1) limits with
    | .error k => .error (.LimitExceeded k (path ++ [key]))
    | .ok _ =>
      match compKindOf key with
      | none => .error (.MalformedNode (path ++ [key]))
      | some kind =>
        if children.isEmpty then .error (.MalformedNode (path ++ [key]))
        else
          match buildChildren schema limits children (depth + 1) (count + 1) (path ++ [key]) with
          | .error e => .error e
          | .ok (ts, count') => .ok (.comp kind ts, count')
  | .badNode key, depth, count, path =>
    match Guard.check depth (count + 1) limits with
    | .error k => .error (.LimitExceeded k (path ++ [key]))
    | .ok _ => .error (.MalformedNode (path ++ [key]))

/-- Modelled from the spec: parse the ordered children of a composite
node left to right, threading the node counter; the first failing child
aborts the remaining siblings. -/
def buildChildren (schema : Schema) (limits : GuardLimits) :
    List Raw → Nat → Nat → List String → Except BuildError (List FilterNode × Nat)
  | [], _, count, _ => .ok ([], count)
  | r :: rs, depth, count, path =>
    match buildAux schema limits r depth count path with
    | .error e => .error e
    | .ok (t, count') =>
      match buildChildren schema limits rs depth count' path with
      | .error e => .error e
      | .ok (ts, count'') => .ok (t :: ts, count'')

end

/-- Modelled from the spec: `build(raw, schema, limits)` - parse and
validate a raw nested mapping into a `FilterNode` tree, or fail with a
single terminal `BuildError`. -/
def build (raw : Raw) (schema : Schema) (limits : GuardLimits) :
    Except BuildError FilterNode :=
  match buildAux schema limits raw 1 0 [] with
  | .error e => .error e
  | .ok (t, _) => .ok t

/-! ## Structural measures of a raw input -/

mutual

/-- Nesting depth of a raw input (a childless node has depth 1). -/
def Raw.depth : Raw → Nat
  | .listNode _ cs => 1 + Raw.depthList cs
  | _ => 1

/-- Greatest nesting depth among a list of raw nodes. -/
def Raw.depthList : List Raw → Nat
  | [] => 0
  | r :: rs => max r.depth (Raw.depthList rs)

end

mutual

/-- Total number of nodes of a raw input. -/
def Raw.nodes : Raw → Nat
  | .listNode _ cs => 1 + Raw.nodesList cs
  | _ => 1

/-- Total number of nodes of a list of raw nodes. -/
def Raw.nodesList : List Raw → Nat
  | [] => 0
  | r :: rs => r.nodes + Raw.nodesList rs

end

mutual

/-- A raw input is schema-valid when every node matches a shape the
builder accepts: composites are marked `and`/`or` with at least one
child, and every leaf names a schema field with a permitted operator and
a coercible value.  This predicate ignores the guard limits. -/
def schemaValid (schema : Schema) : Raw → Bool
  | .empty => true
  | .leafNode name v opStr =>
    (compKindOf name).isNone &&
      (match schemaLookup schema name with
       | none => false
       | some dom =>
         match parseOperator opStr with
         | none => false
         | some op => decide (op ∈ permittedOperators dom) && (coerceValue dom v).isSome)
  | .listNode key cs => (compKindOf key).isSome && !cs.isEmpty && schemaValidList schema cs
  | .badNode _ => false

/-- Schema-validity of every node in a list. -/
def schemaValidList (schema : Schema) : List Raw → Bool
  | [] => true
  | r :: rs => schemaValid schema r && schemaValidList schema rs

end

mutual

/-- A raw input contains a leaf whose field name is not a composite
marker and is absent from the schema. -/
def hasUnknownField (schema : Schema) : Raw → Bool
  | .leafNode name _ _ => (compKindOf name).isNone && (schemaLookup schema name).isNone
  | .listNode _ cs => hasUnknownFieldList schema cs
  | _ => false

/-- Whether some node of a list contains an unknown-field leaf. -/
def hasUnknownFieldList (schema : Schema) : List Raw → Bool
  | [] => false
  | r :: rs => hasUnknownField schema r || hasUnknownFieldList schema rs

end

/-- Every raw node has at least one node. -/
theorem Raw.one_le_nodes (r : Raw) : 1 ≤ r.nodes := by
  cases r <;> simp [Raw.nodes]

/-- Every raw node has depth at least one. -/
theorem Raw.one_le_depth (r : Raw) : 1 ≤ r.depth := by
  cases r <;> simp [Raw.depth]

/-! ## Builder characterisation lemmas -/

/-- The guard accepts when both counters are within the limits. -/
theorem Guard.check_ok (d n : Nat) (l : GuardLimits) (hd : d ≤ l.maxDepth)
    (hn : n ≤ l.maxNodes) : Guard.check d n l = .ok () := by
  rw [Guard.check, if_neg (by omega), if_neg (by omega)]

/-- The guard reports the depth limit as soon as the depth counter
exceeds it. -/
theorem Guard.check_depth (d n : Nat) (l : GuardLimits) (hd : l.maxDepth < d) :
    Guard.check d n l = .error .Depth := by
  rw [Guard.check, if_pos hd]

/-- The guard reports the node-count limit when the depth is fine but the
node counter exceeds the maximum. -/
theorem Guard.check_nodes (d n : Nat) (l : GuardLimits) (hd : d ≤ l.maxDepth)
    (hn : l.maxNodes < n) : Guard.check d n l = .error .NodeCount := by
  rw [Guard.check, if_neg (by omega), if_pos hn]

mutual

/-- A schema-valid raw node whose subtree stays within both limits builds
successfully, and the returned counter accounts for exactly the nodes of
the subtree. -/
theorem buildAux_ok (schema : Schema) (limits : GuardLimits) (r : Raw)
    (d c : Nat) (p : List String) (hv : schemaValid schema r = true)
    (hd : d + r.depth ≤ limits.maxDepth + 1) (hc : c + r.nodes ≤ limits.maxNodes) :
    ∃ t, buildAux schema limits r d c p = .ok (t, c + r.nodes) := by
  match r with
  | .empty =>
    simp only [Raw.depth, Raw.nodes] at hd hc ⊢
    simp only [buildAux, Guard.check_ok d (c + 1) limits (by omega) (by omega)]
    exact ⟨_, rfl⟩
  | .leafNode name v opStr =>
    simp only [Raw.depth, Raw.nodes] at hd hc ⊢
    simp only [schemaValid, Bool.and_eq_true, Option.isNone_iff_eq_none] at hv
    obtain ⟨hck, hrest⟩ := hv
    cases hlk : schemaLookup schema name with
    | none => rw [hlk] at hrest; simp at hrest
    | some dom =>
      rw [hlk] at hrest
      cases hop : parseOperator opStr with
      | none => rw [hop] at hrest; simp at hrest
      | some op =>
        rw [hop] at hrest
        simp only [Bool.and_eq_true, decide_eq_true_eq, Option.isSome_iff_exists] at hrest
        obtain ⟨hmem, value, hcv⟩ := hrest
        simp only [buildAux, Guard.check_ok d (c + 1) limits (by omega) (by omega), hck,
          hlk, hop, if_pos hmem, hcv]
        exact ⟨_, rfl⟩
  | .listNode key cs =>
    simp only [Raw.depth, Raw.nodes] at hd hc ⊢
    simp only [schemaValid, Bool.and_eq_true, Option.isSome_iff_exists,
      Bool.not_eq_true', Bool.not_eq_true] at hv
    obtain ⟨⟨⟨kind, hk⟩, hne⟩, hvl⟩ := hv
    obtain ⟨ts, hts⟩ := buildChildren_ok schema limits cs (d + 1) (c + 1)
      (p ++ [key]) hvl (by omega) (by omega)
    simp only [buildAux, Guard.check_ok d (c + 1) limits (by omega) (by omega), hk,
      if_neg (show ¬cs.isEmpty = true by simp [hne])]
    simp only [hts]
    rw [← Nat.add_assoc]
    exact ⟨_, rfl⟩
  | .badNode key => simp [schemaValid] at hv

/-- List version of `buildAux_ok`: schema-valid siblings within the
limits all build, consuming exactly their node count. -/
theorem buildChildren_ok (schema : Schema) (limits : GuardLimits) (rs : List Raw)
    (d c : Nat) (p : List String) (hv : schemaValidList schema rs = true)
    (hd : d + Raw.depthList rs ≤ limits.maxDepth + 1)
    (hc : c + Raw.nodesList rs ≤ limits.maxNodes) :
    ∃ ts, buildChildren schema limits rs d c p = .ok (ts, c + Raw.nodesList rs) := by
  match rs with
  | [] => exact ⟨[], rfl⟩
  | r :: rs' =>
    simp only [Raw.depthList, Raw.nodesList] at hd hc ⊢
    simp only [schemaValidList, Bool.and_eq_true] at hv
    obtain ⟨hvr, hvl⟩ := hv
    have hmax1 := Nat.le_max_left r.depth (Raw.depthList rs')
    have hmax2 := Nat.le_max_right r.depth (Raw.depthList rs')
    obtain ⟨t, ht⟩ := buildAux_ok schema limits r d c p hvr (by omega) (by omega)
    obtain ⟨ts, hts⟩ := buildChildren_ok schema limits rs' d (c + r.nodes) p hvl
      (by omega) (by omega)
    simp only [buildChildren, ht]
    simp only [hts]
    rw [← Nat.add_assoc]
    exact ⟨t :: ts, rfl⟩

end

mutual

/-- A schema-valid raw node within the node budget whose subtree is too
deep always fails with the `Depth` limit error. -/
theorem buildAux_depth_err (schema : Schema) (limits : GuardLimits) (r : Raw)
    (d c : Nat) (p : List String) (hv : schemaValid schema r = true)
    (hc : c + r.nodes ≤ limits.maxNodes) (hd : limits.maxDepth + 1 < d + r.depth) :
    ∃ q, buildAux schema limits r d c p = .error (.LimitExceeded .Depth q) := by
  match r with
  | .empty =>
    simp only [Raw.depth, Raw.nodes] at hd hc
    simp only [buildAux, Guard.check_depth d (c + 1) limits (by omega)]
    exact ⟨_, rfl⟩
  | .leafNode name v opStr =>
    simp only [Raw.depth, Raw.nodes] at hd hc
    simp only [buildAux, Guard.check_depth d (c + 1) limits (by omega)]
    exact ⟨_, rfl⟩
  | .listNode key cs =>
    simp only [Raw.depth, Raw.nodes] at hd hc
    simp only [schemaValid, Bool.and_eq_true, Option.isSome_iff_exists,
      Bool.not_eq_true', Bool.not_eq_true] at hv
    obtain ⟨⟨⟨kind, hk⟩, hne⟩, hvl⟩ := hv
    by_cases hcase : limits.maxDepth < d
    · simp only [buildAux, Guard.check_depth d (c + 1) limits hcase]
      exact ⟨_, rfl⟩
    · obtain ⟨q, hq⟩ := buildChildren_depth_err schema limits cs (d + 1) (c + 1)
        (p ++ [key]) hvl (by omega) (by omega) (by omega)
      simp only [buildAux, Guard.check_ok d (c + 1) limits (by omega) (by omega), hk,
        if_neg (show ¬cs.isEmpty = true by simp [hne])]
      simp only [hq]
      exact ⟨q, rfl⟩
  | .badNode key => simp [schemaValid] at hv

/-- List version of `buildAux_depth_err`. -/
theorem buildChildren_depth_err (schema : Schema) (limits : GuardLimits)
    (rs : List Raw) (d c : Nat) (p : List String)
    (hv : schemaValidList schema rs = true) (hc : c + Raw.nodesList rs ≤ limits.maxNodes)
    (hdin : d ≤ limits.maxDepth + 1) (hd : limits.maxDepth + 1 < d + Raw.depthList rs) :
    ∃ q, buildChildren schema limits rs d c p = .error (.LimitExceeded .Depth q) := by
  match rs with
  | [] =>
    simp only [Raw.depthList] at hd
    omega
  | r :: rs' =>
    simp only [Raw.depthList, Raw.nodesList] at hd hc
    simp only [schemaValidList, Bool.and_eq_true] at hv
    obtain ⟨hvr, hvl⟩ := hv
    have hmax1 := Nat.le_max_left r.depth (Raw.depthList rs')
    have hmax2 := Nat.le_max_right r.depth (Raw.depthList rs')
    by_cases hA : limits.maxDepth + 1 < d + r.depth
    · obtain ⟨q, hq⟩ := buildAux_depth_err schema limits r d c p hvr (by omega) hA
      simp only [buildChildren, hq]
      exact ⟨q, rfl⟩
    · obtain ⟨t, ht⟩ := buildAux_ok schema limits r d c p hvr (by omega) (by omega)
      rcases max_choice r.depth (Raw.depthList rs') with hm | hm <;> rw [hm] at hd
      · omega
      · obtain ⟨q, hq⟩ := buildChildren_depth_err schema limits rs' d (c + r.nodes) p
          hvl (by omega) hdin (by omega)
        simp only [buildChildren, ht]
        simp only [hq]
        exact ⟨q, rfl⟩

end

mutual

/-- A schema-valid raw node within the depth limit whose subtree has too
many nodes always fails with the `NodeCount` limit error. -/
theorem buildAux_nodes_err (schema : Schema) (limits : GuardLimits) (r : Raw)
    (d c : Nat) (p : List String) (hv : schemaValid schema r = true)
    (hd : d + r.depth ≤ limits.maxDepth + 1) (hc : limits.maxNodes < c + r.nodes) :
    ∃ q, buildAux schema limits r d c p = .error (.LimitExceeded .NodeCount q) := by
  match r with
  | .empty =>
    simp only [Raw.depth, Raw.nodes] at hd hc
    simp only [buildAux, Guard.check_nodes d (c + 1) limits (by omega) (by omega)]
    exact ⟨_, rfl⟩
  | .leafNode name v opStr =>
    simp only [Raw.depth, Raw.nodes] at hd hc
    simp only [buildAux, Guard.check_nodes d (c + 1) limits (by omega) (by omega)]
    exact ⟨_, rfl⟩
  | .listNode key cs =>
    simp only [Raw.depth, Raw.nodes] at hd hc
    simp only [schemaValid, Bool.and_eq_true, Option.isSome_iff_exists,
      Bool.not_eq_true', Bool.not_eq_true] at hv
    obtain ⟨⟨⟨kind, hk⟩, hne⟩, hvl⟩ := hv
    by_cases hcase : limits.maxNodes < c + 1
    · simp only [buildAux, Guard.check_nodes d (c + 1) limits (by omega) hcase]
      exact ⟨_, rfl⟩
    · obtain ⟨q, hq⟩ := buildChildren_nodes_err schema limits cs (d + 1) (c + 1)
        (p ++ [key]) hvl (by omega) (by omega) (by omega)
      simp only [buildAux, Guard.check_ok d (c + 1) limits (by omega) (by omega), hk,
        if_neg (show ¬cs.isEmpty = true by simp [hne])]
      simp only [hq]
      exact ⟨q, rfl⟩
  | .badNode key => simp [schemaValid] at hv

/-- List version of `buildAux_nodes_err`. -/
theorem buildChildren_nodes_err (schema : Schema) (limits : GuardLimits)
    (rs : List Raw) (d c : Nat) (p : List String)
    (hv : schemaValidList schema rs = true)
    (hd : d + Raw.depthList rs ≤ limits.maxDepth + 1) (hcin : c ≤ limits.maxNodes)
    (hc : limits.maxNodes < c + Raw.nodesList rs) :
    ∃ q, buildChildren schema limits rs d c p = .error (.LimitExceeded .NodeCount q) := by
  match rs with
  | [] =>
    simp only [Raw.nodesList] at hc
    omega
  | r :: rs' =>
    simp only [Raw.depthList, Raw.nodesList] at hd hc
    simp only [schemaValidList, Bool.and_eq_true] at hv
    obtain ⟨hvr, hvl⟩ := hv
    have hmax1 := Nat.le_max_left r.depth (Raw.depthList rs')
    have hmax2 := Nat.le_max_right r.depth (Raw.depthList rs')
    by_cases hB : limits.maxNodes < c + r.nodes
    · obtain ⟨q, hq⟩ := buildAux_nodes_err schema limits r d c p hvr (by omega) hB
      simp only [buildChildren, hq]
      exact ⟨q, rfl⟩
    · obtain ⟨t, ht⟩ := buildAux_ok schema limits r d c p hvr (by omega) (by omega)
      obtain ⟨q, hq⟩ := buildChildren_nodes_err schema limits rs' d (c + r.nodes) p
        hvl (by omega) (by omega) (by omega)
      simp only [buildChildren, ht]
      simp only [hq]
      exact ⟨q, rfl⟩

end

mutual

/-- A raw input containing an unknown-field leaf never builds
successfully: the builder reports an error instead of silently dropping
the leaf. -/
theorem buildAux_unknown (schema : Schema) (limits : GuardLimits) (r : Raw)
    (d c : Nat) (p : List String) (out : FilterNode × Nat)
    (h : hasUnknownField schema r = true) :
    buildAux schema limits r d c p ≠ .ok out := by
  match r with
  | .empty => simp [hasUnknownField] at h
  | .badNode key => simp [hasUnknownField] at h
  | .leafNode name v opStr =>
    simp only [hasUnknownField, Bool.and_eq_true, Option.isNone_iff_eq_none] at h
    obtain ⟨hck, hlk⟩ := h
    cases hg : Guard.check d (c + 1) limits with
    | error k => simp [buildAux, hg]
    | ok u => simp [buildAux, hg, hck, hlk]
  | .listNode key cs =>
    simp only [hasUnknownField] at h
    cases hg : Guard.check d (c + 1) limits with
    | error k => simp [buildAux, hg]
    | ok u =>
      cases hk : compKindOf key with
      | none => simp [buildAux, hg, hk]
      | some kind =>
        by_cases he : cs.isEmpty = true
        · simp [buildAux, hg, hk, he]
        · cases hbc : buildChildren schema limits cs (d + 1) (c + 1) (p ++ [key]) with
          | error e => simp [buildAux, hg, hk, he, hbc]
          | ok pr => exact absurd hbc (buildChildren_unknown schema limits cs
              (d + 1) (c + 1) (p ++ [key]) pr h)

/-- List version of `buildAux_unknown`. -/
theorem buildChildren_unknown (schema : Schema) (limits : GuardLimits)
    (rs : List Raw) (d c : Nat) (p : List String) (out : List FilterNode × Nat)
    (h : hasUnknownFieldList schema rs = true) :
    buildChildren schema limits rs d c p ≠ .ok out := by
  match rs with
  | [] => simp [hasUnknownFieldList] at h
  | r :: rs' =>
    simp only [hasUnknownFieldList, Bool.or_eq_true] at h
    cases hb : buildAux schema limits r d c p with
    | error e => simp [buildChildren, hb]
    | ok pr =>
      rcases h with h | h
      · exact absurd hb (buildAux_unknown schema limits r d c p pr h)
      · cases hbc : buildChildren schema limits rs' d pr.2 p with
        | error e => simp [buildChildren, hb, hbc]
        | ok pr' => exact absurd hbc (buildChildren_unknown schema limits rs' d
            pr.2 p pr' h)

end

/-! ## Predicate compiler (spec section 4.2)

The reference store keeps records as flat mappings from column name to
value.  Pattern operators compile to `LIKE`-style patterns in which `%`
matches any sequence, `_` matches one character and a backslash escapes
the next character; matching is case-insensitive, as required by the
spec's round-trip example (the pattern `john%` must match the record
`John Smith`). -/

/-- A record of the in-memory reference store: column name to value. -/
abbrev Record := List (String × Value)

/-- First-match lookup of a column in a record. -/
def recordLookup (r : Record) (name : String) : Option Value :=
  match r with
  | [] => none
  | (n, v) :: rest => if n = name then some v else recordLookup rest name

/-- Case-insensitive character comparison, the collation of the
reference store. -/
def charEq (a b : Char) : Bool := a.toLower == b.toLower

/-- The store's wildcard metacharacters: `%`, `_` and the escape
character itself. -/
def isMeta (c : Char) : Bool := c = '%' || c = '_' || c = '\\'

/-- Modelled from the spec: escape every wildcard metacharacter of a
user-supplied value before embedding it in a pattern. -/
def escapeChars : List Char → List Char
  | [] => []
  | c :: cs => if isMeta c then '\\' :: c :: escapeChars cs else c :: escapeChars cs

/-- A token of a `LIKE` pattern: `%` (any sequence), `_` (exactly one
character), or a literal character (possibly produced by an escape). -/
inductive LikeTok where
  | anySeq
  | anyOne
  | lit (c : Char)
deriving Repr, DecidableEq

/-- Tokenise a `LIKE` pattern: `%` and `_` are wildcards, a backslash
escapes the following character into a literal token, and every other
character is a literal token. -/
def lexPattern : List Char → List LikeTok
  | [] => []
  | c :: p =>
    if c = '%' then .anySeq :: lexPattern p
    else if c = '_' then .anyOne :: lexPattern p
    else if c = '\\' then
      match p with
      | [] => [.lit '\\']
      | e :: p' => .lit e :: lexPattern p'
    else .lit c :: lexPattern p

/-- Matching of a tokenised `LIKE` pattern: `anySeq` matches any suffix,
`anyOne` consumes one character, and a literal compares
case-insensitively. -/
def likeMatchesTok : List LikeTok → List Char → Bool
  | [], s => s.isEmpty
  | .anySeq :: p, s => s.tails.any (fun t => likeMatchesTok p t)
  | .anyOne :: _, [] => false
  | .anyOne :: p, _ :: s' => likeMatchesTok p s'
  | .lit _ :: _, [] => false
  | .lit c :: p, d :: s' => charEq d c && likeMatchesTok p s'

/-- Pattern matching of the reference store's `LIKE` conditions:
tokenise the pattern, then match. -/
def likeMatches (p s : List Char) : Bool := likeMatchesTok (lexPattern p) s

/-- Lower-case image of a character list (the store collation's
normal form). -/
def lowerList (s : List Char) : List Char := s.map Char.toLower

/-- Modelled from the spec: the predicate fragment language emitted by
the compiler.  A `disj` node is a parenthesized group: its children are
combined by `or` as a single unit wherever the node is placed. -/
inductive Predicate where
  | tt
  | like (field : String) (pattern : List Char)
  | cmpEq (field : String) (value : Value) (negated : Bool)
  | cmpOrd (field : String) (op : Operator) (value : Value)
  | conj (ps : List Predicate)
  | disj (ps : List Predicate)
deriving Repr

/-- Ordered comparison of a record value `rv` against a filter value `v`
under an ordered operator (number domain). -/
def ordSat (op : Operator) (v rv : Value) : Bool :=
  match op, v, rv with
  | .GREATER_THAN, .num n, .num m => decide (n < m)
  | .LESS_THAN, .num n, .num m => decide (m < n)
  | .GREATER_THAN_OR_EQUAL, .num n, .num m => decide (n ≤ m)
  | .LESS_THAN_OR_EQUAL, .num n, .num m => decide (m ≤ n)
  | _, _, _ => false

mutual

/-- Evaluation of an emitted predicate fragment over one record of the
reference store. -/
def Predicate.eval : Predicate → Record → Bool
  | .tt, _ => true
  | .like f pat, r =>
    match recordLookup r f with
    | some (.str s) => likeMatches pat s.data
    | _ => false
  | .cmpEq f v neg, r =>
    match recordLookup r f with
    | some rv => if neg then !(rv == v) else rv == v
    | none => false
  | .cmpOrd f op v, r =>
    match recordLookup r f with
    | some rv => ordSat op v rv
    | none => false
  | .conj ps, r => Predicate.evalAll ps r
  | .disj ps, r => Predicate.evalAny ps r

/-- Conjunction of the fragments of a `conj` group. -/
def Predicate.evalAll : List Predicate → Record → Bool
  | [], _ => true
  | p :: ps, r => Predicate.eval p r && Predicate.evalAll ps r

/-- Disjunction of the fragments of a `disj` group. -/
def Predicate.evalAny : List Predicate → Record → Bool
  | [], _ => false
  | p :: ps, r => Predicate.eval p r || Predicate.evalAny ps r

end

mutual

/-- Modelled from the spec: compile one validated filter node into a
predicate fragment.  A pattern operator escapes the user-supplied value
and embeds it in a `LIKE` pattern (`BEGINS` → `v%`, `CONTAINS` → `%v%`,
`ENDS` → `%v`); `IS`/`NOT` become equality tests; ordered operators
become comparisons; an `AND` composite conjoins and an `OR` composite
disjoins its children as one parenthesized group. -/
def toPred : FilterNode → Predicate
  | .leaf f op v =>
    match op, v with
    | .BEGINS, .str pat => .like f.name (escapeChars pat.data ++ ['%'])
    | .CONTAINS, .str pat => .like f.name ('%' :: (escapeChars pat.data ++ ['%']))
    | .ENDS, .str pat => .like f.name ('%' :: escapeChars pat.data)
    | .IS, v => .cmpEq f.name v false
    | .NOT, v => .cmpEq f.name v true
    | op, v => .cmpOrd f.name op v
  | .comp .AND cs => .conj (toPredList cs)
  | .comp .OR cs => .disj (toPredList cs)

/-- Compile each child of a composite, preserving order. -/
def toPredList : List FilterNode → List Predicate
  | [] => []
  | t :: ts => toPred t :: toPredList ts

end

/-- Modelled from the spec: the opaque query handle of the store
boundary - for the in-memory reference store, the record collection
together with the predicate accumulated so far. -/
structure QueryHandle where
  records : List Record
  cond : Predicate

/-- The base query over a record collection: no predicate applied. -/
def baseQuery (records : List Record) : QueryHandle := ⟨records, .tt⟩

/-- Modelled from the spec: `compile(tree, base)` augments the handle
with the tree's compiled predicate as one more conjunct. -/
def compile (tree : FilterNode) (base : QueryHandle) : QueryHandle :=
  ⟨base.records, .conj [base.cond, toPred tree]⟩

/-- Execute a query handle against the reference store: keep exactly the
records satisfying the accumulated predicate. -/
def runQuery (q : QueryHandle) : List Record :=
  q.records.filter (fun r => Predicate.eval q.cond r)

/-! ## Ground-truth oracle (spec section 8)

Modelled from the spec: the oracle evaluates the boolean filter
expression directly against every record - prefix match for `BEGINS`,
substring match for `CONTAINS`, suffix match for `ENDS`, equality for
`IS`/`NOT` and ordered comparison for the remaining operators, all under
the store's case-insensitive collation. -/

/-- Direct evaluation of one leaf comparison against a record value. -/
def applyOpDirect (op : Operator) (v rv : Value) : Bool :=
  match op, v, rv with
  | .BEGINS, .str pat, .str s => (lowerList pat.data).isPrefixOf (lowerList s.data)
  | .CONTAINS, .str pat, .str s =>
    (lowerList s.data).tails.any (fun t => (lowerList pat.data).isPrefixOf t)
  | .ENDS, .str pat, .str s => (lowerList pat.data).isSuffixOf (lowerList s.data)
  | .BEGINS, _, _ => false
  | .CONTAINS, _, _ => false
  | .ENDS, _, _ => false
  | .IS, v, rv => rv == v
  | .NOT, v, rv => !(rv == v)
  | op, v, rv => ordSat op v rv

mutual

/-- Modelled from the spec: direct record-by-record evaluation of a
filter tree - the ground-truth oracle. -/
def evalNode : FilterNode → Record → Bool
  | .leaf f op v, r =>
    match recordLookup r f.name with
    | some rv => applyOpDirect op v rv
    | none => false
  | .comp .AND cs, r => evalNodeAll cs r
  | .comp .OR cs, r => evalNodeAny cs r

/-- All children of an `AND` composite hold. -/
def evalNodeAll : List FilterNode → Record → Bool
  | [], _ => true
  | t :: ts, r => evalNode t r && evalNodeAll ts r

/-- Some child of an `OR` composite holds. -/
def evalNodeAny : List FilterNode → Record → Bool
  | [], _ => false
  | t :: ts, r => evalNode t r || evalNodeAny ts r

end

/-! ## `LIKE`-matching lemmas: escaped patterns match literally -/

/-- Case-insensitive character comparison, read as a proposition. -/
theorem charEq_true_iff (d c : Char) : charEq d c = true ↔ c.toLower = d.toLower := by
  rw [charEq, beq_iff_eq]
  exact eq_comm

theorem lexPattern_percent (p : List Char) :
    lexPattern ('%' :: p) = .anySeq :: lexPattern p := by
  cases p <;> simp [lexPattern]

theorem lexPattern_esc (e : Char) (p : List Char) :
    lexPattern ('\\' :: e :: p) = .lit e :: lexPattern p := by
  simp [lexPattern]

theorem lexPattern_lit (c : Char) (p : List Char) (h1 : ¬c = '%') (h2 : ¬c = '_')
    (h3 : ¬c = '\\') : lexPattern (c :: p) = .lit c :: lexPattern p := by
  cases p <;> simp [lexPattern, h1, h2, h3]

theorem lexPattern_escape_append (v rest : List Char) :
    lexPattern (escapeChars v ++ rest) = v.map LikeTok.lit ++ lexPattern rest := by
  induction v with
  | nil => simp [escapeChars]
  | cons c v ih =>
    by_cases hm : isMeta c = true
    · simp only [escapeChars, if_pos hm, List.cons_append, List.map_cons]
      rw [lexPattern_esc]
      simp [ih]
    · simp only [isMeta, Bool.or_eq_true, decide_eq_true_eq, not_or] at hm
      obtain ⟨⟨h1, h2⟩, h3⟩ := hm
      have hnm : ¬(isMeta c = true) := by simp [isMeta, h1, h2, h3]
      simp only [escapeChars, if_neg hnm, List.cons_append, List.map_cons]
      rw [lexPattern_lit c _ h1 h2 h3]
      simp [ih]

theorem likeMatchesTok_lit_iff (v : List Char) : ∀ s : List Char,
    (likeMatchesTok (v.map LikeTok.lit) s = true ↔ lowerList v = lowerList s) := by
  induction v with
  | nil =>
    intro s
    cases s <;> simp [likeMatchesTok, lowerList]
  | cons c v ih =>
    intro s
    cases s with
    | nil => simp [likeMatchesTok, lowerList]
    | cons d s' =>
      simp only [List.map_cons, likeMatchesTok, Bool.and_eq_true, charEq_true_iff,
        ih s', lowerList, List.cons.injEq, List.append_eq]

theorem likeMatchesTok_begins_iff (v : List Char) : ∀ s : List Char,
    (likeMatchesTok (v.map LikeTok.lit ++ [.anySeq]) s = true ↔
      lowerList v <+: lowerList s) := by
  induction v with
  | nil =>
    intro s
    simp only [List.map_nil, List.nil_append, likeMatchesTok, List.any_eq_true,
      List.mem_tails, lowerList]
    constructor
    · intro _; exact ⟨lowerList s, rfl⟩
    · intro _
      exact ⟨[], ⟨s, by simp⟩, rfl⟩
  | cons c v ih =>
    intro s
    cases s with
    | nil => simp [likeMatchesTok, lowerList]
    | cons d s' =>
      simp only [List.map_cons, List.cons_append, likeMatchesTok, Bool.and_eq_true,
        List.append_eq, charEq_true_iff, ih s', lowerList, List.cons_prefix_cons]

theorem likeMatches_begins_iff (v s : List Char) :
    likeMatches (escapeChars v ++ ['%']) s = true ↔ lowerList v <+: lowerList s := by
  rw [likeMatches, lexPattern_escape_append]
  rw [show lexPattern ['%'] = [.anySeq] by rw [lexPattern_percent]; rfl]
  exact likeMatchesTok_begins_iff v s

theorem likeMatches_ends_iff (v s : List Char) :
    likeMatches ('%' :: escapeChars v) s = true ↔ lowerList v <:+ lowerList s := by
  rw [likeMatches, lexPattern_percent,
    show escapeChars v = escapeChars v ++ [] from (List.append_nil _).symm,
    lexPattern_escape_append]
  simp only [lexPattern, List.append_nil]
  rw [show likeMatchesTok (.anySeq :: v.map .lit) s =
    s.tails.any (fun t => likeMatchesTok (v.map .lit) t) from rfl]
  rw [List.any_eq_true]
  simp only [List.mem_tails, likeMatchesTok_lit_iff]
  rw [show lowerList s = s.map Char.toLower from rfl, List.isSuffix_map_iff]
  constructor
  · rintro ⟨t, ht, hv⟩; exact ⟨t, ht, hv⟩
  · rintro ⟨t, ht, hv⟩; exact ⟨t, ht, hv⟩

theorem likeMatches_contains_iff (v s : List Char) :
    likeMatches ('%' :: (escapeChars v ++ ['%'])) s = true ↔
      lowerList v <:+: lowerList s := by
  rw [likeMatches, lexPattern_percent, lexPattern_escape_append]
  rw [show lexPattern ['%'] = [.anySeq] by rw [lexPattern_percent]; rfl]
  rw [show likeMatchesTok (.anySeq :: (v.map .lit ++ [.anySeq])) s =
    s.tails.any (fun t => likeMatchesTok (v.map .lit ++ [.anySeq]) t) from rfl]
  rw [List.any_eq_true]
  simp only [List.mem_tails, likeMatchesTok_begins_iff]
  rw [ List.infix_iff_prefix_suffix]
  constructor
  · rintro ⟨t, ht, hv⟩
    exact ⟨lowerList t, hv, List.IsSuffix.map Char.toLower ht⟩
  · rintro ⟨t', hp, hs⟩
    rw [show lowerList s = s.map Char.toLower from rfl, List.isSuffix_map_iff] at hs
    obtain ⟨t, ht, rfl⟩ := hs
    exact ⟨t, ht, hp⟩

/-- Two booleans agreeing as propositions are equal. -/
theorem bool_eq_of_iff {a b : Bool} (h : a = true ↔ b = true) : a = b := by
  cases a <;> cases b <;> simp_all

/-- The compiled `BEGINS` pattern agrees with the direct
(case-insensitive) prefix check. -/
theorem likeMatches_begins_eq (pat s : List Char) :
    likeMatches (escapeChars pat ++ ['%']) s =
      (lowerList pat).isPrefixOf (lowerList s) := by
  apply bool_eq_of_iff
  rw [likeMatches_begins_iff, List.isPrefixOf_iff_prefix]

/-- The compiled `ENDS` pattern agrees with the direct (case-insensitive)
suffix check. -/
theorem likeMatches_ends_eq (pat s : List Char) :
    likeMatches ('%' :: escapeChars pat) s =
      (lowerList pat).isSuffixOf (lowerList s) := by
  apply bool_eq_of_iff
  rw [likeMatches_ends_iff, List.isSuffixOf_iff_suffix]

/-- The compiled `CONTAINS` pattern agrees with the direct
(case-insensitive) substring check. -/
theorem likeMatches_contains_eq (pat s : List Char) :
    likeMatches ('%' :: (escapeChars pat ++ ['%'])) s =
      (lowerList s).tails.any (fun t => (lowerList pat).isPrefixOf t) := by
  apply bool_eq_of_iff
  rw [likeMatches_contains_iff, List.any_eq_true]
  simp only [List.mem_tails, List.isPrefixOf_iff_prefix]
  rw [ List.infix_iff_prefix_suffix]
  constructor
  · rintro ⟨t, hp, hs⟩; exact ⟨t, hs, hp⟩
  · rintro ⟨t, hs, hp⟩; exact ⟨t, hp, hs⟩

/-- On every leaf, the compiled predicate fragment evaluates exactly as
the ground-truth oracle does. -/
theorem eval_toPred_leaf (f : FilterField) (op : Operator) (v : Value) (r : Record) :
    Predicate.eval (toPred (.leaf f op v)) r = evalNode (.leaf f op v) r := by
  cases hlk : recordLookup r f.name with
  | none =>
    cases op <;> cases v <;>
      simp [toPred, Predicate.eval, evalNode, hlk]
  | some rv =>
    cases op <;> cases v <;> cases rv <;>
      simp [toPred, Predicate.eval, evalNode, applyOpDirect, hlk, ordSat,
        likeMatches_begins_eq, likeMatches_ends_eq, likeMatches_contains_eq]

mutual

/-- The compiled predicate of a filter tree evaluates on every record
exactly as the ground-truth oracle evaluates the tree. -/
theorem eval_toPred (t : FilterNode) (r : Record) :
    Predicate.eval (toPred t) r = evalNode t r := by
  match t with
  | .leaf f op v => exact eval_toPred_leaf f op v r
  | .comp .AND cs =>
    rw [show toPred (.comp .AND cs) = .conj (toPredList cs) from rfl,
      show Predicate.eval (.conj (toPredList cs)) r = Predicate.evalAll (toPredList cs) r
        from rfl,
      show evalNode (.comp .AND cs) r = evalNodeAll cs r from rfl]
    exact eval_toPredAll cs r
  | .comp .OR cs =>
    rw [show toPred (.comp .OR cs) = .disj (toPredList cs) from rfl,
      show Predicate.eval (.disj (toPredList cs)) r = Predicate.evalAny (toPredList cs) r
        from rfl,
      show evalNode (.comp .OR cs) r = evalNodeAny cs r from rfl]
    exact eval_toPredAny cs r

/-- Conjunction version of `eval_toPred`. -/
theorem eval_toPredAll (ts : List FilterNode) (r : Record) :
    Predicate.evalAll (toPredList ts) r = evalNodeAll ts r := by
  match ts with
  | [] => rfl
  | t :: ts' =>
    rw [show toPredList (t :: ts') = toPred t :: toPredList ts' from rfl,
      show Predicate.evalAll (toPred t :: toPredList ts') r =
        (Predicate.eval (toPred t) r && Predicate.evalAll (toPredList ts') r) from rfl,
      show evalNodeAll (t :: ts') r = (evalNode t r && evalNodeAll ts' r) from rfl,
      eval_toPred t r, eval_toPredAll ts' r]

/-- Disjunction version of `eval_toPred`. -/
theorem eval_toPredAny (ts : List FilterNode) (r : Record) :
    Predicate.evalAny (toPredList ts) r = evalNodeAny ts r := by
  match ts with
  | [] => rfl
  | t :: ts' =>
    rw [show toPredList (t :: ts') = toPred t :: toPredList ts' from rfl,
      show Predicate.evalAny (toPred t :: toPredList ts') r =
        (Predicate.eval (toPred t) r || Predicate.evalAny (toPredList ts') r) from rfl,
      show evalNodeAny (t :: ts') r = (evalNode t r || evalNodeAny ts' r) from rfl,
      eval_toPred t r, eval_toPredAny ts' r]

end

/-- Running a compiled query against the reference store returns exactly
the records the ground-truth oracle accepts. -/
theorem runQuery_compile (t : FilterNode) (records : List Record) :
    runQuery (compile t (baseQuery records)) = records.filter (fun r => evalNode t r) := by
  rw [runQuery, compile, baseQuery]
  apply List.filter_congr
  intro r _
  rw [show Predicate.eval (.conj [.tt, toPred t]) r =
    (Predicate.eval .tt r && (Predicate.eval (toPred t) r && true)) from rfl]
  rw [eval_toPred]
  cases evalNode t r <;> rfl

/-! ## Blog index page and layout component

These definitions are translated from the repository's page sources: the
index page with its `pageQuery` (GraphQL `allMdx` sorted by frontmatter
date, descending, executed by the site framework and modelled here as a
sort), and the `Layout` component. -/

/-- The frontmatter fields the index page queries for each article. -/
structure Frontmatter where
  title : String
  date : String
  description : String
deriving Repr, DecidableEq

/-- One `allMdx` node of the index page's query: excerpt, slug and
frontmatter. -/
structure PostNode where
  excerpt : String
  slug : String
  frontmatter : Frontmatter
deriving Repr, DecidableEq

/-- The index page's GraphQL query: all posts sorted by
`frontmatter___date` in descending order.  The framework executes the
sort; it is modelled as an insertion sort by descending date (ISO-8601
date strings compare chronologically in lexicographic string order). -/
def pageQuery (allPosts : List PostNode) : List PostNode :=
  List.insertionSort (fun a b => b.frontmatter.date ≤ a.frontmatter.date) allPosts

/-- One article as rendered by the index page: linked title (frontmatter
title, or the slug when the title is empty), the frontmatter date, and
the description (or the excerpt when the description is empty). -/
structure RenderedArticle where
  title : String
  date : String
  description : String
deriving Repr, DecidableEq

/-- Render one post node into an index article, as `IndexPage` does. -/
def renderArticle (n : PostNode) : RenderedArticle :=
  { title := if n.frontmatter.title = "" then n.slug else n.frontmatter.title,
    date := n.frontmatter.date,
    description :=
      if n.frontmatter.description = "" then n.excerpt else n.frontmatter.description }

/-- The `IndexPage` component renders the queried posts in order. -/
def IndexPage (data : List PostNode) : List RenderedArticle :=
  data.map renderArticle

/-- The whole index page pipeline: query (sorted) then render. -/
def renderIndex (posts : List PostNode) : List RenderedArticle :=
  IndexPage (pageQuery posts)

/-- A miniature render tree for the layout component. -/
inductive Html where
  | text (s : String)
  | tag (name : String) (children : List Html)
deriving Repr

/-- The `Header` component: a header bar with a home link showing the
site title. -/
def headerRender (siteTitle : String) : Html :=
  .tag "header" [.tag "h1" [.tag "link" [.text siteTitle]]]

/-- The `Layout` component of the blog: wrapper with header, main
content and a copyright footer.  The `location` prop is accepted but not
used by the render (the source destructures it into an unused binding),
and the year shown in the footer comes from the clock, modelled as an
explicit argument. -/
def layoutRender (_location : String) (title : String) (children : Html)
    (year : Nat) : Html :=
  .tag "wrapper"
    [headerRender title,
     .tag "main" [children],
     .tag "footer" [.text ("© " ++ toString year ++ " jamienuttall.me")]]

/-! ## Concrete fixtures for the claims -/

/-- Schema of the running example: users filterable by name and email. -/
def userSchema : Schema := [("name", .string), ("email", .string)]

/-- The spec's round-trip filter:
`{and:[{name:{value:"john",operator:BEGINS}},{name:{value:" sm",operator:CONTAINS}}]}`. -/
def c1raw : Raw :=
  .listNode "and"
    [.leafNode "name" (.str "john") "BEGINS",
     .leafNode "name" (.str " sm") "CONTAINS"]

/-- The tree `build` produces for `c1raw`. -/
def c1tree : FilterNode :=
  .comp .AND
    [.leaf ⟨"name", .string⟩ .BEGINS (.str "john"),
     .leaf ⟨"name", .string⟩ .CONTAINS (.str " sm")]

/-- The spec's round-trip records. -/
def userRecords : List Record :=
  [[("name", .str "John Smith")],
   [("name", .str "John Appleseed")],
   [("name", .str "Sam Smith")]]

/-- The spec's disjunction-grouping filter:
`{and:[{name:{value:"john",operator:BEGINS}},{or:[{name:{value:"t",operator:ENDS}},{name:{value:"p",operator:ENDS}}]}]}`. -/
def c2raw : Raw :=
  .listNode "and"
    [.leafNode "name" (.str "john") "BEGINS",
     .listNode "or"
       [.leafNode "name" (.str "t") "ENDS",
        .leafNode "name" (.str "p") "ENDS"]]

/-- The tree `build` produces for `c2raw`. -/
def c2tree : FilterNode :=
  .comp .AND
    [.leaf ⟨"name", .string⟩ .BEGINS (.str "john"),
     .comp .OR
       [.leaf ⟨"name", .string⟩ .ENDS (.str "t"),
        .leaf ⟨"name", .string⟩ .ENDS (.str "p")]]

/-- The spec's disjunction-grouping records. -/
def c2records : List Record :=
  [[("name", .str "John Pratt")],
   [("name", .str "John Cole")],
   [("name", .str "John Key")]]

/-- A straight chain of nested `and` nodes ending in a valid leaf;
`chainRaw n` has depth `n + 1` and `n + 1` nodes. -/
def chainRaw : Nat → Raw
  | 0 => .leafNode "name" (.str "x") "IS"
  | n + 1 => .listNode "and" [chainRaw n]

/-- A depth-11 input (one more than the default limit) whose first child
names an unknown field. -/
def c3cex : Raw :=
  .listNode "and" [.leafNode "bogus" (.str "x") "IS", chainRaw 9]

/-- A 101-node input (one more than the default limit) whose first child
names an unknown field. -/
def c4cex : Raw :=
  .listNode "and"
    (.leafNode "bogus" (.str "x") "IS" ::
      List.replicate 99 (.leafNode "name" (.str "x") "IS"))

/-! ## Claims -/

/-- C1: for every raw input valid against the schema and within the
limits, `build` then `compile` against the in-memory reference store
returns exactly the records the ground-truth oracle (record-by-record
evaluation of the boolean expression) returns; in particular the spec's
round-trip example over `["John Smith","John Appleseed","Sam Smith"]`
returns exactly `["John Smith"]`. -/
theorem build_compile_refines_oracle :
    (∀ (raw : Raw) (schema : Schema) (limits : GuardLimits) (records : List Record)
        (t : FilterNode), build raw schema limits = .ok t →
      runQuery (compile t (baseQuery records)) = records.filter (fun r => evalNode t r)) ∧
    build c1raw userSchema defaultLimits = .ok c1tree ∧
    runQuery (compile c1tree (baseQuery userRecords)) =
      [[("name", .str "John Smith")]] := by
  refine ⟨fun raw schema limits records t _ => runQuery_compile t records, rfl, ?_⟩
  decide

/-- C1 witness: the refinement theorem applied to the round-trip
example. -/
theorem build_compile_refines_oracle_witness :
    runQuery (compile c1tree (baseQuery userRecords)) =
      userRecords.filter (fun r => evalNode c1tree r) :=
  build_compile_refines_oracle.1 c1raw userSchema defaultLimits userRecords c1tree rfl

/-- C2 counterexample: on the spec's own disjunction-grouping example the
pipeline returns exactly `["John Pratt"]` - the record `"John Key"` ends
with neither `t` nor `p` - so the claimed output
`["John Pratt","John Key"]` is wrong. -/
theorem or_grouping_counterexample :
    build c2raw userSchema defaultLimits = .ok c2tree ∧
    runQuery (compile c2tree (baseQuery c2records)) = [[("name", .str "John Pratt")]] ∧
    runQuery (compile c2tree (baseQuery c2records)) ≠
      [[("name", .str "John Pratt")], [("name", .str "John Key")]] := by
  refine ⟨rfl, by decide, by decide⟩

/-- C2 (amended): an `OR` composite compiles to a single grouped
disjunction fragment, so conjoined with a sibling predicate the OR does
not distribute over it; on the spec's concrete example the pipeline
returns exactly `["John Pratt"]` (not `["John Pratt","John Key"]` as the
spec's vector says - `"John Key"` ends with neither `t` nor `p`). -/
theorem or_grouping :
    (∀ cs : List FilterNode, toPred (.comp .OR cs) = .disj (toPredList cs)) ∧
    (∀ (a : FilterNode) (cs : List FilterNode) (r : Record),
      Predicate.eval (toPred (.comp .AND [a, .comp .OR cs])) r =
        (Predicate.eval (toPred a) r && Predicate.evalAny (toPredList cs) r)) ∧
    build c2raw userSchema defaultLimits = .ok c2tree ∧
    runQuery (compile c2tree (baseQuery c2records)) =
      [[("name", .str "John Pratt")]] := by
  refine ⟨fun cs => rfl, ?_, rfl, by decide⟩
  intro a cs r
  show (Predicate.eval (toPred a) r && (Predicate.evalAny (toPredList cs) r && true)) = _
  rw [Bool.and_true]

/-- C3 counterexample: `c3cex` has nesting depth `maxDepth + 1` under the
default limits, yet `build` returns `UnknownField "bogus"` (the invalid
sibling is reached before the deep chain), not `LimitExceeded Depth` -
so "for every input whose depth equals `maxDepth + 1`" is too strong. -/
theorem depth_limit_counterexample :
    Raw.depth c3cex = defaultLimits.maxDepth + 1 ∧
    build c3cex userSchema defaultLimits = .error (.UnknownField "bogus") ∧
    ∀ q : List String,
      build c3cex userSchema defaultLimits ≠ .error (.LimitExceeded .Depth q) := by
  refine ⟨by decide, rfl, ?_⟩
  intro q h
  rw [show build c3cex userSchema defaultLimits = .error (.UnknownField "bogus")
    from rfl] at h
  exact BuildError.noConfusion (Except.error.inj h)

/-- C3 (amended): with default `maxDepth = 10`, every schema-valid input
within the node budget whose depth is `maxDepth + 1` fails with
`LimitExceeded Depth`, and every schema-valid input within the node
budget whose depth is exactly `maxDepth` builds successfully (the depth
limit is inclusive at `maxDepth`, exclusive above it). -/
theorem depth_limit_boundary :
    defaultLimits.maxDepth = 10 ∧
    (∀ (raw : Raw) (schema : Schema) (limits : GuardLimits),
      schemaValid schema raw = true → raw.nodes ≤ limits.maxNodes →
      raw.depth = limits.maxDepth + 1 →
      ∃ q, build raw schema limits = .error (.LimitExceeded .Depth q)) ∧
    (∀ (raw : Raw) (schema : Schema) (limits : GuardLimits),
      schemaValid schema raw = true → raw.nodes ≤ limits.maxNodes →
      raw.depth = limits.maxDepth →
      ∃ t, build raw schema limits = .ok t) := by
  refine ⟨rfl, ?_, ?_⟩
  · intro raw schema limits hv hn hd
    obtain ⟨q, hq⟩ := buildAux_depth_err schema limits raw 1 0 [] hv (by omega) (by omega)
    exact ⟨q, by rw [build, hq]⟩
  · intro raw schema limits hv hn hd
    have h1 := Raw.one_le_depth raw
    obtain ⟨t, ht⟩ := buildAux_ok schema limits raw 1 0 [] hv (by omega) (by omega)
    exact ⟨t, by rw [build, ht]⟩

/-- C3 witness: a depth-11 chain trips the depth limit under the default
limits, and a depth-10 chain builds. -/
theorem depth_limit_boundary_witness :
    (∃ q, build (chainRaw 10) userSchema defaultLimits =
      .error (.LimitExceeded .Depth q)) ∧
    (∃ t, build (chainRaw 9) userSchema defaultLimits = .ok t) :=
  ⟨depth_limit_boundary.2.1 (chainRaw 10) userSchema defaultLimits (by decide)
      (by decide) (by decide),
   depth_limit_boundary.2.2 (chainRaw 9) userSchema defaultLimits (by decide)
      (by decide) (by decide)⟩

/-- C4 counterexample: `c4cex` has `maxNodes + 1` nodes under the default
limits, yet `build` returns `UnknownField "bogus"` (the invalid first
child aborts the build before the counter can reach the limit), not
`LimitExceeded NodeCount` - so "for every input whose node count equals
`maxNodes + 1`" is too strong. -/
theorem nodes_limit_counterexample :
    Raw.nodes c4cex = defaultLimits.maxNodes + 1 ∧
    build c4cex userSchema defaultLimits = .error (.UnknownField "bogus") ∧
    ∀ q : List String,
      build c4cex userSchema defaultLimits ≠ .error (.LimitExceeded .NodeCount q) := by
  refine ⟨by decide, rfl, ?_⟩
  intro q h
  rw [show build c4cex userSchema defaultLimits = .error (.UnknownField "bogus")
    from rfl] at h
  exact BuildError.noConfusion (Except.error.inj h)

/-- C4 (amended): with default `maxNodes = 100`, every schema-valid
input within the depth limit whose total node count is `maxNodes + 1`
fails with `LimitExceeded NodeCount`; the limit is enforced across the
whole tree by the single counter the builder threads through the
recursion. -/
theorem nodes_limit_exceeded :
    defaultLimits.maxNodes = 100 ∧
    (∀ (raw : Raw) (schema : Schema) (limits : GuardLimits),
      schemaValid schema raw = true → raw.depth ≤ limits.maxDepth →
      raw.nodes = limits.maxNodes + 1 →
      ∃ q, build raw schema limits = .error (.LimitExceeded .NodeCount q)) := by
  refine ⟨rfl, ?_⟩
  intro raw schema limits hv hd hn
  obtain ⟨q, hq⟩ := buildAux_nodes_err schema limits raw 1 0 [] hv (by omega) (by omega)
  exact ⟨q, by rw [build, hq]⟩

/-- C4 witness: a six-node input trips a five-node limit. -/
theorem nodes_limit_exceeded_witness :
    ∃ q, build (.listNode "and" (List.replicate 5 (.leafNode "name" (.str "x") "IS")))
      userSchema ⟨10, 5⟩ = .error (.LimitExceeded .NodeCount q) :=
  nodes_limit_exceeded.2
    (.listNode "and" (List.replicate 5 (.leafNode "name" (.str "x") "IS")))
    userSchema ⟨10, 5⟩ (by decide) (by decide) (by decide)

/-- C5: `build` returns either a single terminal error or a whole tree -
never a partial tree - and an error in one child short-circuits the
parse: the composite fails with that very error whatever the remaining
siblings are, so they are never parsed. -/
theorem build_fail_fast :
    (∀ (raw : Raw) (schema : Schema) (limits : GuardLimits),
      (∃ e, build raw schema limits = .error e) ∨
      (∃ t, build raw schema limits = .ok t)) ∧
    (∀ (schema : Schema) (limits : GuardLimits) (r : Raw) (rs : List Raw)
        (d c : Nat) (p : List String) (e : BuildError),
      buildAux schema limits r d c p = .error e →
      buildChildren schema limits (r :: rs) d c p = .error e) := by
  constructor
  · intro raw schema limits
    cases h : build raw schema limits with
    | error e => exact .inl ⟨e, rfl⟩
    | ok t => exact .inr ⟨t, rfl⟩
  · intro schema limits r rs d c p e h
    simp only [buildChildren, h]

/-- C5 witness: a malformed first sibling aborts the list with its own
error, with a well-formed second sibling left unparsed. -/
theorem build_fail_fast_witness :
    buildChildren userSchema defaultLimits
      (.badNode "x" :: [.leafNode "name" (.str "a") "IS"]) 1 0 [] =
      .error (.MalformedNode ["x"]) :=
  build_fail_fast.2 userSchema defaultLimits (.badNode "x")
    [.leafNode "name" (.str "a") "IS"] 1 0 [] (.MalformedNode ["x"]) rfl

/-- C6: a leaf naming a field absent from the schema makes `build` fail
with `UnknownField` carrying that name, and no input containing an
unknown-field leaf ever builds successfully (never silently dropped). -/
theorem unknown_field_rejected :
    (∀ (name : String) (v : Value) (opStr : String) (schema : Schema)
        (limits : GuardLimits),
      compKindOf name = none → schemaLookup schema name = none →
      1 ≤ limits.maxDepth → 1 ≤ limits.maxNodes →
      build (.leafNode name v opStr) schema limits = .error (.UnknownField name)) ∧
    (∀ (raw : Raw) (schema : Schema) (limits : GuardLimits) (t : FilterNode),
      hasUnknownField schema raw = true → build raw schema limits ≠ .ok t) := by
  constructor
  · intro name v opStr schema limits hck hlk hd hn
    rw [build]
    simp only [buildAux, Guard.check_ok 1 (0 + 1) limits (by omega) (by omega), hck, hlk]
  · intro raw schema limits t h hok
    rw [build] at hok
    cases hb : buildAux schema limits raw 1 0 [] with
    | error e => rw [hb] at hok; exact Except.noConfusion hok
    | ok pr => exact buildAux_unknown schema limits raw 1 0 [] pr h hb

/-- C6 witness: the unknown field `bogus` is reported at top level, and
an input containing it nested inside a composite never builds. -/
theorem unknown_field_rejected_witness :
    build (.leafNode "bogus" (.str "x") "IS") userSchema defaultLimits =
      .error (.UnknownField "bogus") ∧
    build (.listNode "and" [.leafNode "bogus" (.str "x") "IS"]) userSchema
      defaultLimits ≠ .ok (.comp .AND []) :=
  ⟨unknown_field_rejected.1 "bogus" (.str "x") "IS" userSchema defaultLimits
      (by decide) (by decide) (by decide) (by decide),
   unknown_field_rejected.2 (.listNode "and" [.leafNode "bogus" (.str "x") "IS"])
      userSchema defaultLimits (.comp .AND []) (by decide)⟩

/-- C7: pattern operators escape the store's wildcard metacharacters
before embedding the value: the emitted patterns are exactly the escaped
value with the operator's anchors, and for every value (metacharacters
included) the compiled pattern evaluates as the literal case-insensitive
prefix / substring / suffix check - never as a wildcard, as the closing
concrete cases with `%` and `_` show. -/
theorem pattern_metacharacters_escaped :
    (∀ (f : FilterField) (pat : String),
      toPred (.leaf f .BEGINS (.str pat)) =
        .like f.name (escapeChars pat.data ++ ['%']) ∧
      toPred (.leaf f .CONTAINS (.str pat)) =
        .like f.name ('%' :: (escapeChars pat.data ++ ['%'])) ∧
      toPred (.leaf f .ENDS (.str pat)) =
        .like f.name ('%' :: escapeChars pat.data)) ∧
    (∀ pat s : List Char,
      likeMatches (escapeChars pat ++ ['%']) s =
        (lowerList pat).isPrefixOf (lowerList s) ∧
      likeMatches ('%' :: (escapeChars pat ++ ['%'])) s =
        (lowerList s).tails.any (fun t => (lowerList pat).isPrefixOf t) ∧
      likeMatches ('%' :: escapeChars pat) s =
        (lowerList pat).isSuffixOf (lowerList s)) ∧
    likeMatches (escapeChars "100%".data ++ ['%']) "100% wool".data = true ∧
    likeMatches (escapeChars "100%".data ++ ['%']) "1000 wool".data = false ∧
    likeMatches (escapeChars "a_c".data ++ ['%']) "abc".data = false ∧
    likeMatches (escapeChars "a_c".data ++ ['%']) "a_cd".data = true :=
  ⟨fun f pat => ⟨rfl, rfl, rfl⟩,
   fun pat s => ⟨likeMatches_begins_eq pat s, likeMatches_contains_eq pat s,
     likeMatches_ends_eq pat s⟩,
   by decide, by decide, by decide, by decide⟩

/-- C8: an empty top-level input builds to the empty `AND` composite
rather than an error, and compiling that empty conjunction adds no
predicate: the query returns every record. -/
theorem empty_input_identity :
    (∀ (schema : Schema) (limits : GuardLimits),
      1 ≤ limits.maxDepth → 1 ≤ limits.maxNodes →
      build .empty schema limits = .ok (.comp .AND [])) ∧
    (∀ records : List Record,
      runQuery (compile (.comp .AND []) (baseQuery records)) = records) := by
  constructor
  · intro schema limits hd hn
    rw [build]
    simp only [buildAux, Guard.check_ok 1 (0 + 1) limits (by omega) (by omega)]
  · intro records
    rw [runQuery_compile]
    rw [show (fun r : Record => evalNode (.comp .AND []) r) = (fun _ => true)
      from funext fun r => rfl]
    exact List.filter_true records

/-- C8 witness: the empty input under the default limits, and the empty
conjunction over the running example's records. -/
theorem empty_input_identity_witness :
    build .empty userSchema defaultLimits = .ok (.comp .AND []) ∧
    runQuery (compile (.comp .AND []) (baseQuery userRecords)) = userRecords :=
  ⟨empty_input_identity.1 userSchema defaultLimits (by decide) (by decide),
   empty_input_identity.2 userRecords⟩

/-- C9: the blog index renders posts in descending frontmatter-date
order - for every pair of adjacent rendered articles, the first one's
date is not earlier than the second one's. -/
theorem index_sorted_by_date (posts : List PostNode) :
    List.Chain' (fun a b : RenderedArticle => b.date ≤ a.date)
      (renderIndex posts) := by
  haveI h1 : IsTotal PostNode (fun a b => b.frontmatter.date ≤ a.frontmatter.date) :=
    ⟨fun a b => le_total b.frontmatter.date a.frontmatter.date⟩
  haveI h2 : IsTrans PostNode (fun a b => b.frontmatter.date ≤ a.frontmatter.date) :=
    ⟨fun _ _ _ hab hbc => le_trans hbc hab⟩
  have hs := List.sorted_insertionSort
    (fun a b : PostNode => b.frontmatter.date ≤ a.frontmatter.date) posts
  rw [renderIndex, IndexPage, pageQuery]
  exact (List.chain'_map renderArticle).mpr hs.chain'

/-- C10: the layout component's render does not depend on the `location`
prop - with the same title, children and year, any two locations render
identically. -/
theorem layout_ignores_location (loc₁ loc₂ title : String) (children : Html)
    (year : Nat) :
    layoutRender loc₁ title children year = layoutRender loc₂ title children year :=
  rfl
